import Mathlib

/-!
Verification model of the `dmitigr::prg` library (command-line parsing,
daemonization and lifecycle startup), shallowly embedded from
`src/command.hpp`, `src/detach.hpp` and `src/run.hpp`.
-/

namespace Prg

/-- Model of `Command::Option_map` (`std::map<std::string,
std::optional<std::string>>`): an association list kept sorted by key,
mirroring the ordered map. -/
abbrev OptionMap := List (String × Option String)

/-- Model of `options[key] = value` on `std::map`: ordered insertion that
overwrites the value when the key is already present. -/
def mapInsert (k : String) (v : Option String) : OptionMap → OptionMap
  | [] => [(k, v)]
  | (q, w) :: rest =>
    if k < q then (k, v) :: (q, w) :: rest
    else if k = q then (k, v) :: rest
    else (q, w) :: mapInsert k v rest

/-- Model of `std::map::find` on the option map. -/
def mapFind (k : String) : OptionMap → Option (Option String)
  | [] => none
  | (q, w) :: rest => if k = q then some w else mapFind k rest

/-- Model of `dmitigr::prg::Command`: a name, the map of options and the
vector of parameters. -/
structure Command where
  name : String
  options : OptionMap
  parameters : List String
deriving DecidableEq, Repr

/-- Model of the `is_opt` lambda in `parsed_commands`:
`arg.find("--") == 0`, i.e. the token starts with two dashes. -/
def isOpt (arg : String) : Bool :=
  match arg.data with
  | '-' :: '-' :: _ => true
  | _ => false

/-- Model of `arg.find('=', 2)` followed by the split into name and value:
splits a character list at the first occurrence of the equals sign, or
returns `none` if there is no equals sign. -/
def splitEq : List Char → Option (List Char × List Char)
  | [] => none
  | c :: cs =>
    if c = '=' then some ([], cs)
    else
      match splitEq cs with
      | some (n, v) => some (c :: n, v)
      | none => none

/-- Model of the `opt` lambda in `parsed_commands`: classifies a token.
`none` means "not an option" (does not start with two dashes); otherwise
the pair holds the option name (empty for the explicit end-of-options
token) and the optional value. -/
def optTok (arg : String) : Option (String × Option String) :=
  match arg.data with
  | '-' :: '-' :: rest =>
    if rest = [] then some (⟨[]⟩, none)
    else
      match splitEq rest with
      | some (n, v) => some (⟨n⟩, some ⟨v⟩)
      | none => some (⟨rest⟩, none)
  | _ => none

/-- Model of the option-collecting `for` loop of `parsed_commands`:
consumes option tokens, returning the accumulated option map, the
`is_end_of_options_detected` flag and the remaining arguments. -/
def scanOpts : List String → OptionMap → OptionMap × Bool × List String
  | [], acc => (acc, false, [])
  | a :: rest, acc =>
    match optTok a with
    | some (k, v) =>
      if k.data = [] then (acc, true, rest)
      else scanOpts rest (mapInsert k v acc)
    | none => (acc, false, a :: rest)

/-- The grammar-error message `"empty command name at argv[i]"` thrown by
`parsed_commands`. -/
def emptyNameMsg (i : Nat) : String :=
  r"empty command name at argv[" ++ toString i ++ r"]"

/-- Model of the `while` loop of `parsed_commands`: processes commands one
after the other; `argi` is the index of the current command name within
the original argv (used in the grammar-error message). -/
def parseLoop (oneMode : Bool) : List String → Nat → Except String (List Command)
  | [], _ => Except.ok []
  | name :: rest, argi =>
    if name.data = [] then Except.error (emptyNameMsg argi)
    else
      let s := scanOpts rest []
      if s.2.1 || oneMode then
        Except.ok [⟨name, s.1, s.2.2⟩]
      else
        match parseLoop oneMode s.2.2 (argi + 1 + (rest.length - s.2.2.length)) with
        | Except.ok cmds => Except.ok (⟨name, s.1, []⟩ :: cmds)
        | Except.error e => Except.error e
termination_by args _ => args.length
decreasing_by
  have key : ∀ (args2 : List String) (acc : OptionMap),
      (scanOpts args2 acc).2.2.length ≤ args2.length := by
    intro args2
    induction args2 with
    | nil => intro acc; simp [scanOpts]
    | cons a rest2 ih =>
      intro acc
      simp only [scanOpts]
      cases h : optTok a with
      | none => simp
      | some kv =>
        obtain ⟨k, v⟩ := kv
        by_cases hk : k.data = []
        · simp [hk]
        · simp [hk]
          exact Nat.le_succ_of_le (ih _)
  simp only [List.length_cons]
  exact Nat.lt_succ_of_le (key rest [])

/-- Model of `dmitigr::prg::parsed_commands(argc, argv, is_one_command_mode)`:
checks `argc > 0` and runs the command-parsing loop. A thrown
`Exception` is modelled as `Except.error` carrying the message. -/
def parsedCommands (argv : List String) (oneMode : Bool) :
    Except String (List Command) :=
  if argv = [] then Except.error (r"invalid count of arguments (argc)")
  else parseLoop oneMode argv 0

/-- The explicit end-of-options token. -/
def markerS : String := r"--"

/-- Renders an option back into its command-line token: `--k` for a valueless
option and `--k=v` for an option with value `v`. -/
def renderTok : String × Option String → String
  | (k, none) => ⟨'-' :: '-' :: k.data⟩
  | (k, some v) => ⟨'-' :: '-' :: (k.data ++ '=' :: v.data)⟩

/-- Folding `mapInsert` over a token list, exactly as the option-collecting
loop does. -/
def insertAll (acc : OptionMap) (opts : List (String × Option String)) :
    OptionMap :=
  opts.foldl (fun m p => mapInsert p.1 p.2 m) acc

/-- The ordered-map invariant: keys strictly increasing. -/
def sortedKeys (m : OptionMap) : Prop :=
  m.Pairwise (fun a b => a.1 < b.1)

/-- Well-formedness of a list of named options: each name is non-empty and
contains no equals sign, and the names are pairwise distinct. -/
def wfOpts (opts : List (String × Option String)) : Prop :=
  (∀ p ∈ opts, p.1.data ≠ [] ∧ '=' ∉ p.1.data) ∧ (opts.map Prod.fst).Nodup

/-- The option map produced by scanning the rendered tokens of `opts`. -/
def builtMap (opts : List (String × Option String)) : OptionMap :=
  insertAll [] opts

/-- Model of `Command::Optref`: an option reference with a validity flag,
the option name and the optional value. -/
structure Optref where
  is_valid : Bool
  name : String
  value : Option String
deriving DecidableEq, Repr

/-- Model of `Command::option(name)`: a valid reference carrying the mapped
value when the name is found, otherwise an invalid reference. -/
def Command.option (c : Command) (n : String) : Optref :=
  match mapFind n c.options with
  | some w => ⟨true, n, w⟩
  | none => ⟨false, n, none⟩

/-- The message built by `Optref::throw_requirement`:
`"option --" + name + " " + requirement`. -/
def Optref.requirementMessage (o : Optref) (req : String) : String :=
  r"option --" ++ o.name ++ r" " ++ req

/-- Requirement text used by `is_valid_throw_if_value`. -/
def reqNoValue : String := r"requires no value"

/-- Requirement text used by `is_valid_throw_if_no_value` and
`value_of_mandatory_not_null`. -/
def reqAValue : String := r"requires a value"

/-- Requirement text used by `value_of_mandatory_not_empty` (note: the
source writes it without a hyphen). -/
def reqNonEmpty : String := r"requires a non empty value"

/-- Requirement text used by `value_of_mandatory`. -/
def reqMandatory : String := r"is mandatory"

/-- Model of `Optref::is_valid_throw_if_value`: throws when the reference
is valid and carries a value, otherwise returns the validity flag. -/
def Optref.is_valid_throw_if_value (o : Optref) : Except String Bool :=
  if o.is_valid && o.value.isSome then
    Except.error (o.requirementMessage reqNoValue)
  else Except.ok o.is_valid

/-- Model of `Optref::is_valid_throw_if_no_value`: throws when the
reference is valid and carries no value, otherwise returns the validity
flag. -/
def Optref.is_valid_throw_if_no_value (o : Optref) : Except String Bool :=
  if o.is_valid && o.value.isNone then
    Except.error (o.requirementMessage reqAValue)
  else Except.ok o.is_valid

/-- Model of `Optref::value_of_mandatory`. -/
def Optref.value_of_mandatory (o : Optref) : Except String (Option String) :=
  if o.is_valid then Except.ok o.value
  else Except.error (o.requirementMessage reqMandatory)

/-- Model of `Optref::value_of_mandatory_not_null`. -/
def Optref.value_of_mandatory_not_null (o : Optref) : Except String String :=
  match o.value_of_mandatory with
  | Except.error e => Except.error e
  | Except.ok none => Except.error (o.requirementMessage reqAValue)
  | Except.ok (some v) => Except.ok v

/-- Model of `Optref::value_of_mandatory_not_empty`. -/
def Optref.value_of_mandatory_not_empty (o : Optref) : Except String String :=
  match o.value_of_mandatory_not_null with
  | Except.error e => Except.error e
  | Except.ok v =>
    if v.data = [] then Except.error (o.requirementMessage reqNonEmpty)
    else Except.ok v

/-- The steps of the `detach` algorithm, in program order. -/
inductive Step where
  | validate
  | fork1
  | umask
  | redirect
  | setsid
  | fork2
  | dumpPid
  | chdir
  | closeStdin
  | closeStdout
  | closeStderr
  | startup
deriving DecidableEq, Repr

/-- Program order of the steps of `detach`. -/
def stepIdx : Step → Nat
  | Step.validate => 0
  | Step.fork1 => 1
  | Step.umask => 2
  | Step.redirect => 3
  | Step.setsid => 4
  | Step.fork2 => 5
  | Step.dumpPid => 6
  | Step.chdir => 7
  | Step.closeStdin => 8
  | Step.closeStdout => 9
  | Step.closeStderr => 10
  | Step.startup => 11

/-- Outcome of a `detach` run, seen from the process that executes the
body: termination via `std::exit(EXIT_SUCCESS)`, via
`std::exit(EXIT_FAILURE)`, or a normal return into the detached process. -/
inductive Outcome where
  | exitSuccess
  | exitFailure
  | returned
deriving DecidableEq, Repr

/-- Which fallible system calls and collaborator calls fail in a given
run. `umask` cannot fail; the validation step is driven by the paths. -/
structure DetachEnv where
  fork1Fails : Bool
  redirectFails : Bool
  setsidFails : Bool
  fork2Fails : Bool
  dumpPidFails : Bool
  chdirFails : Bool
  closeStdinFails : Bool
  closeStdoutFails : Bool
  closeStderrFails : Bool
  startupFails : Bool
deriving DecidableEq, Repr

/-- Whether a given step fails in the environment. -/
def stepFails (env : DetachEnv) : Step → Bool
  | Step.validate => false
  | Step.fork1 => env.fork1Fails
  | Step.umask => false
  | Step.redirect => env.redirectFails
  | Step.setsid => env.setsidFails
  | Step.fork2 => env.fork2Fails
  | Step.dumpPid => env.dumpPidFails
  | Step.chdir => env.chdirFails
  | Step.closeStdin => env.closeStdinFails
  | Step.closeStdout => env.closeStdoutFails
  | Step.closeStderr => env.closeStderrFails
  | Step.startup => env.startupFails

/-- The linear sequence of guarded steps executed by `detach` after the
validation step, in source order. -/
def stepsOrder : List Step :=
  [Step.fork1, Step.umask, Step.redirect, Step.setsid, Step.fork2,
   Step.dumpPid, Step.chdir, Step.closeStdin, Step.closeStdout,
   Step.closeStderr, Step.startup]

/-- Executes a linear sequence of guarded steps: each failing step
produces a diagnostic and `std::exit(EXIT_FAILURE)` (so nothing after it
runs); if all succeed the function returns. The trace records each
attempted step and whether it succeeded. -/
def runSteps (env : DetachEnv) : List Step → List (Step × Bool) × Outcome
  | [] => ([], Outcome.returned)
  | s :: rest =>
    if stepFails env s then ([(s, false)], Outcome.exitFailure)
    else
      ((s, true) :: (runSteps env rest).1, (runSteps env rest).2)

/-- Model of `dmitigr::prg::detach` as the trace of attempted steps and the
final outcome of the process lineage that keeps executing the body (each
`fork` parent exits immediately; the child continues). The initial
validation rejects an empty working directory and empty or `.`/`..`
PID-file and log-file paths with `std::exit(EXIT_SUCCESS)`. -/
def detachRun (env : DetachEnv) (workingDirectory pidFile logFile : String) :
    List (Step × Bool) × Outcome :=
  if workingDirectory.data = [] then
    ([(Step.validate, false)], Outcome.exitSuccess)
  else if pidFile.data = [] ∨ pidFile = r"." ∨ pidFile = r".." then
    ([(Step.validate, false)], Outcome.exitSuccess)
  else if logFile.data = [] ∨ logFile = r"." ∨ logFile = r".." then
    ([(Step.validate, false)], Outcome.exitSuccess)
  else
    ((Step.validate, true) :: (runSteps env stepsOrder).1,
      (runSteps env stepsOrder).2)

/-- An environment in which every fallible step succeeds. -/
def envAllOk : DetachEnv :=
  ⟨false, false, false, false, false, false, false, false, false, false⟩

/-- An environment in which only the log-redirect step fails. -/
def envRedirectFail : DetachEnv :=
  ⟨false, true, false, false, false, false, false, false, false, false⟩

/-- Splits a character list at the LAST occurrence of `sep`:
`some (before, after)`, or `none` when `sep` does not occur. -/
def splitLastSep (sep : Char) : List Char → Option (List Char × List Char)
  | [] => none
  | c :: cs =>
    match splitLastSep sep cs with
    | some (a, b) => some (c :: a, b)
    | none => if c = sep then some ([], cs) else none

/-- Model of `std::filesystem::path::parent_path` for the plain
slash-separated paths used by `start`. -/
def parentPath (p : String) : String :=
  match splitLastSep '/' p.data with
  | some (a, _) => ⟨a⟩
  | none => ⟨[]⟩

/-- Model of `std::filesystem::path::filename`. -/
def filename (p : String) : String :=
  match splitLastSep '/' p.data with
  | some (_, b) => ⟨b⟩
  | none => p

/-- Drops the extension (the suffix from the last dot, when the dot is not
the leading character) of a filename's characters. -/
def dropExt (l : List Char) : List Char :=
  match splitLastSep '.' l with
  | some (a, _) => if a = [] then l else a
  | none => l

/-- Model of `std::filesystem::path::replace_extension` (the replacement
includes its leading dot). -/
def replaceExtension (p e : String) : String :=
  match splitLastSep '/' p.data with
  | some (d, f) => ⟨d ++ '/' :: (dropExt f ++ e.data)⟩
  | none => ⟨dropExt p.data ++ e.data⟩

/-- Model of `std::filesystem::path::operator/`. -/
def pathApp (a b : String) : String :=
  if a.data = [] then b else ⟨a.data ++ '/' :: b.data⟩

/-- The `".pid"` extension given to a defaulted PID file. -/
def pidExt : String := r".pid"

/-- The `".log"` extension given to a defaulted log file. -/
def logExt : String := r".log"

/-- The effective (working directory, PID file, log file) after the
defaulting logic at the head of `start`: an empty working directory is
replaced by the executable's parent directory, and, only when detaching,
empty PID/log paths are replaced by the executable's filename under the
working directory with the `.pid`/`.log` extension. -/
def startPaths (detach : Bool) (exe wd0 pf0 lf0 : String) :
    String × String × String :=
  let wd := if wd0.data = [] then parentPath exe else wd0
  let pf := if detach then
      (if pf0.data = [] then
        replaceExtension (pathApp wd (filename exe)) pidExt
      else pf0)
    else pf0
  let lf := if detach then
      (if lf0.data = [] then
        replaceExtension (pathApp wd (filename exe)) logExt
      else lf0)
    else lf0
  (wd, pf, lf)

/-- Observable actions of `start` after path defaulting. -/
inductive StartAction where
  | chdir (dir : String)
  | dumpPid (file : String)
  | redirectClog (file : String)
  | runStartup
  | callDetach (wd pf lf : String)
deriving DecidableEq, Repr

/-- Model of the body of `start` after defaulting: the non-detached path
changes directory, persists the PID only when a PID file is set, redirects
the log only when a log file is set, and runs the startup closure; the
detached path hands the closure and the three paths to `detach`. -/
def startActions (detach : Bool) (exe wd0 pf0 lf0 : String) :
    List StartAction :=
  let ps := startPaths detach exe wd0 pf0 lf0
  if detach then [StartAction.callDetach ps.1 ps.2.1 ps.2.2]
  else
    StartAction.chdir ps.1 ::
      ((if ps.2.1.data ≠ [] then [StartAction.dumpPid ps.2.1] else []) ++
        (if ps.2.2.data ≠ [] then [StartAction.redirectClog ps.2.2] else []) ++
        [StartAction.runStartup])

theorem scanOpts_rem_length_le (args : List String) :
    ∀ acc, (scanOpts args acc).2.2.length ≤ args.length := by
  induction args with
  | nil => intro acc; simp [scanOpts]
  | cons a rest ih =>
    intro acc
    simp only [scanOpts]
    cases h : optTok a with
    | none => simp
    | some kv =>
      obtain ⟨k, v⟩ := kv
      by_cases hk : k.data = []
      · simp [hk]
      · simp [hk]
        exact Nat.le_succ_of_le (ih _)

theorem splitEq_append {a : List Char} (ha : '=' ∉ a) (b : List Char) :
    splitEq (a ++ '=' :: b) = some (a, b) := by
  induction a with
  | nil => simp [splitEq]
  | cons c cs ih =>
    have hc : c ≠ '=' := fun h => ha (h ▸ List.mem_cons_self c cs)
    have hcs : '=' ∉ cs := fun h => ha (List.mem_cons_of_mem c h)
    simp [splitEq, hc, ih hcs]

theorem splitEq_none {a : List Char} (ha : '=' ∉ a) : splitEq a = none := by
  induction a with
  | nil => rfl
  | cons c cs ih =>
    have hc : c ≠ '=' := fun h => ha (h ▸ List.mem_cons_self c cs)
    have hcs : '=' ∉ cs := fun h => ha (List.mem_cons_of_mem c h)
    simp [splitEq, hc, ih hcs]

theorem optTok_renderTok {k : String} (v : Option String)
    (h1 : k.data ≠ []) (h2 : '=' ∉ k.data) :
    optTok (renderTok (k, v)) = some (k, v) := by
  cases v with
  | none =>
    show optTok ⟨'-' :: '-' :: k.data⟩ = some (k, none)
    simp [optTok, h1, splitEq_none h2]
  | some v =>
    show optTok ⟨'-' :: '-' :: (k.data ++ '=' :: v.data)⟩ = some (k, some v)
    simp [optTok, splitEq_append h2]

theorem scanOpts_append {opts : List (String × Option String)}
    (hk : ∀ p ∈ opts, p.1.data ≠ [] ∧ '=' ∉ p.1.data) :
    ∀ (rest : List String) (acc : OptionMap),
    scanOpts (opts.map renderTok ++ rest) acc = scanOpts rest (insertAll acc opts) := by
  induction opts with
  | nil => intro rest acc; simp [insertAll]
  | cons p ps ih =>
    intro rest acc
    obtain ⟨k, v⟩ := p
    obtain ⟨hk1, hk2⟩ := hk (k, v) (List.mem_cons_self _ _)
    have hps : ∀ p ∈ ps, p.1.data ≠ [] ∧ '=' ∉ p.1.data :=
      fun p hp => hk p (List.mem_cons_of_mem _ hp)
    simp only [List.map_cons, List.cons_append, scanOpts,
      optTok_renderTok v hk1 hk2]
    rw [if_neg hk1]
    exact ih hps rest (mapInsert k v acc)

theorem scanOpts_marker {t : String} {w : Option String}
    (h : optTok t = some (⟨[]⟩, w)) (ts : List String) (acc : OptionMap) :
    scanOpts (t :: ts) acc = (acc, true, ts) := by
  simp [scanOpts, h]

theorem scanOpts_nonopt {t : String} (h : optTok t = none)
    (ts : List String) (acc : OptionMap) :
    scanOpts (t :: ts) acc = (acc, false, t :: ts) := by
  simp [scanOpts, h]

theorem mem_mapInsert {m : OptionMap} (hs : sortedKeys m)
    (k : String) (v : Option String) (p : String × Option String) :
    p ∈ mapInsert k v m ↔ p = (k, v) ∨ (p ∈ m ∧ p.1 ≠ k) := by
  induction m with
  | nil => simp [mapInsert]
  | cons qw rest ih =>
    obtain ⟨q, w⟩ := qw
    obtain ⟨hq, hrest⟩ := List.pairwise_cons.mp hs
    simp only [mapInsert]
    by_cases h1 : k < q
    · rw [if_pos h1]
      have hqk : q ≠ k := Ne.symm (ne_of_lt h1)
      have hrk : ∀ r ∈ rest, r.1 ≠ k :=
        fun r hr => Ne.symm (ne_of_lt (lt_trans h1 (hq r hr)))
      simp only [List.mem_cons]
      constructor
      · rintro (h | h | h)
        · exact Or.inl h
        · exact Or.inr ⟨Or.inl h, by rw [h]; exact hqk⟩
        · exact Or.inr ⟨Or.inr h, hrk p h⟩
      · rintro (h | ⟨h, _⟩)
        · exact Or.inl h
        · exact Or.inr h
    · rw [if_neg h1]
      by_cases h2 : k = q
      · rw [if_pos h2]
        have hrk : ∀ r ∈ rest, r.1 ≠ k := by
          intro r hr
          have hqr := hq r hr
          rw [← h2] at hqr
          exact Ne.symm (ne_of_lt hqr)
        simp only [List.mem_cons]
        constructor
        · rintro (h | h)
          · exact Or.inl h
          · exact Or.inr ⟨Or.inr h, hrk p h⟩
        · rintro (h | ⟨h | h, hne⟩)
          · exact Or.inl h
          · exact absurd (by rw [h]; exact h2.symm) hne
          · exact Or.inr h
      · rw [if_neg h2]
        simp only [List.mem_cons, ih hrest]
        constructor
        · rintro (h | h | ⟨h, hne⟩)
          · exact Or.inr ⟨Or.inl h, by rw [h]; exact Ne.symm h2⟩
          · exact Or.inl h
          · exact Or.inr ⟨Or.inr h, hne⟩
        · rintro (h | ⟨h | h, hne⟩)
          · exact Or.inr (Or.inl h)
          · exact Or.inl h
          · exact Or.inr (Or.inr ⟨h, hne⟩)

theorem sortedKeys_mapInsert {m : OptionMap} (hs : sortedKeys m)
    (k : String) (v : Option String) : sortedKeys (mapInsert k v m) := by
  induction m with
  | nil =>
    simp only [mapInsert]
    exact List.pairwise_singleton _ _
  | cons qw rest ih =>
    obtain ⟨q, w⟩ := qw
    obtain ⟨hq, hrest⟩ := List.pairwise_cons.mp hs
    simp only [mapInsert]
    by_cases h1 : k < q
    · rw [if_pos h1]
      refine List.pairwise_cons.mpr ⟨?_, hs⟩
      intro r hr
      rcases List.mem_cons.mp hr with h | h
      · rw [h]; exact h1
      · exact lt_trans h1 (hq r h)
    · rw [if_neg h1]
      by_cases h2 : k = q
      · rw [if_pos h2]
        refine List.pairwise_cons.mpr ⟨?_, hrest⟩
        intro r hr
        have hqr := hq r hr
        rw [← h2] at hqr
        exact hqr
      · rw [if_neg h2]
        have h3 : q < k := lt_of_le_of_ne (le_of_not_lt h1) (Ne.symm h2)
        refine List.pairwise_cons.mpr ⟨?_, ih hrest⟩
        intro r hr
        rcases (mem_mapInsert hrest k v r).mp hr with h | ⟨h, _⟩
        · rw [h]; exact h3
        · exact hq r h

theorem length_mapInsert {m : OptionMap} {k : String}
    (h : ∀ p ∈ m, p.1 ≠ k) (v : Option String) :
    (mapInsert k v m).length = m.length + 1 := by
  induction m with
  | nil => rfl
  | cons qw rest ih =>
    obtain ⟨q, w⟩ := qw
    have hqk : q ≠ k := h (q, w) (List.mem_cons_self _ _)
    simp only [mapInsert]
    by_cases h1 : k < q
    · rw [if_pos h1]; simp
    · rw [if_neg h1, if_neg (fun he => hqk he.symm)]
      simp only [List.length_cons]
      rw [ih (fun p hp => h p (List.mem_cons_of_mem _ hp))]

theorem sortedKeys_nil : sortedKeys [] := List.Pairwise.nil

theorem insertAll_props :
    ∀ (opts : List (String × Option String)) (acc : OptionMap),
    sortedKeys acc →
    (opts.map Prod.fst).Nodup →
    (∀ p ∈ opts, ∀ q ∈ acc, q.1 ≠ p.1) →
    sortedKeys (insertAll acc opts) ∧
    (insertAll acc opts).length = acc.length + opts.length ∧
    (∀ p, p ∈ insertAll acc opts ↔ p ∈ acc ∨ p ∈ opts) := by
  intro opts
  induction opts with
  | nil =>
    intro acc hs _ _
    exact ⟨hs, by simp [insertAll], by simp [insertAll]⟩
  | cons kv ps ih =>
    intro acc hs hnd hdisj
    obtain ⟨k, v⟩ := kv
    rw [List.map_cons] at hnd
    obtain ⟨hknotin, hndps⟩ := List.nodup_cons.mp hnd
    have hkacc : ∀ q ∈ acc, q.1 ≠ k :=
      fun q hq => hdisj (k, v) (List.mem_cons_self _ _) q hq
    have hstep : insertAll acc ((k, v) :: ps) = insertAll (mapInsert k v acc) ps := rfl
    have hs2 : sortedKeys (mapInsert k v acc) := sortedKeys_mapInsert hs k v
    have hdisj2 : ∀ p ∈ ps, ∀ q ∈ mapInsert k v acc, q.1 ≠ p.1 := by
      intro p hp q hq
      rcases (mem_mapInsert hs k v q).mp hq with h | ⟨h, _⟩
      · rw [h]
        intro he
        have hmem : p.1 ∈ ps.map Prod.fst := List.mem_map_of_mem Prod.fst hp
        rw [← he] at hmem
        exact hknotin hmem
      · exact hdisj p (List.mem_cons_of_mem _ hp) q h
    obtain ⟨hs3, hlen3, hmem3⟩ := ih (mapInsert k v acc) hs2 hndps hdisj2
    rw [hstep]
    refine ⟨hs3, ?_, ?_⟩
    · rw [hlen3, length_mapInsert hkacc v]
      simp only [List.length_cons]
      omega
    · intro p
      rw [hmem3 p, mem_mapInsert hs k v p, List.mem_cons]
      constructor
      · rintro ((h | ⟨h, _⟩) | h)
        · exact Or.inr (Or.inl h)
        · exact Or.inl h
        · exact Or.inr (Or.inr h)
      · rintro (h | h | h)
        · exact Or.inl (Or.inr ⟨h, hkacc p h⟩)
        · exact Or.inl (Or.inl h)
        · exact Or.inr h

theorem parseLoop_cons (oneMode : Bool) (name : String) (rest : List String)
    (argi : Nat) (h : ¬ name.data = []) :
    parseLoop oneMode (name :: rest) argi =
      (if (scanOpts rest []).2.1 || oneMode then
        Except.ok [⟨name, (scanOpts rest []).1, (scanOpts rest []).2.2⟩]
      else
        match parseLoop oneMode (scanOpts rest []).2.2
            (argi + 1 + (rest.length - (scanOpts rest []).2.2.length)) with
        | Except.ok cmds => Except.ok (⟨name, (scanOpts rest []).1, []⟩ :: cmds)
        | Except.error e => Except.error e) := by
  rw [parseLoop]
  simp [h]

theorem optTok_marker : optTok markerS = some (⟨[]⟩, none) := by decide

theorem builtMap_props {opts : List (String × Option String)}
    (h : wfOpts opts) :
    (builtMap opts).length = opts.length ∧
    (∀ p, p ∈ builtMap opts ↔ p ∈ opts) := by
  obtain ⟨-, hnd⟩ := h
  obtain ⟨_, hlen, hmem⟩ :=
    insertAll_props opts [] sortedKeys_nil hnd (by simp)
  refine ⟨by simpa using hlen, fun p => ?_⟩
  rw [builtMap, hmem p]
  simp

theorem optTok_nonopt {l : List Char} (h : ∀ rest, l ≠ '-' :: '-' :: rest) :
    optTok ⟨l⟩ = none := by
  unfold optTok
  split
  · next rest heq => exact absurd heq (h rest)
  · rfl

theorem stringAppend_assoc (a b c : String) : a ++ b ++ c = a ++ (b ++ c) := by
  cases a with
  | mk da =>
    cases b with
    | mk db =>
      cases c with
      | mk dc =>
        show String.mk (da ++ db ++ dc) = String.mk (da ++ (db ++ dc))
        rw [List.append_assoc]

theorem runSteps_false_outcome {env : DetachEnv} {s : Step} :
    ∀ l : List Step, (s, false) ∈ (runSteps env l).1 →
    (runSteps env l).2 = Outcome.exitFailure := by
  intro l
  induction l with
  | nil => intro h; simp [runSteps] at h
  | cons a rest ih =>
    intro h
    by_cases hf : stepFails env a = true
    · simp [runSteps, hf]
    · rw [runSteps] at h ⊢
      rw [if_neg hf] at h ⊢
      simp only [List.mem_cons] at h
      rcases h with h | h
      · simp at h
      · exact ih h

theorem runSteps_mem_steps {env : DetachEnv} :
    ∀ l : List Step, ∀ p ∈ (runSteps env l).1, p.1 ∈ l := by
  intro l
  induction l with
  | nil => intro p h; simp [runSteps] at h
  | cons a rest ih =>
    intro p h
    by_cases hf : stepFails env a = true
    · simp [runSteps, hf] at h
      simp [h]
    · rw [runSteps, if_neg hf] at h
      simp only [List.mem_cons] at h
      rcases h with h | h
      · simp [h]
      · exact List.mem_cons_of_mem _ (ih p h)

theorem runSteps_rank {env : DetachEnv} (f : Step → Nat) :
    ∀ l : List Step, l.Pairwise (fun a b => f a < f b) →
    ∀ s : Step, (s, false) ∈ (runSteps env l).1 →
    ∀ p ∈ (runSteps env l).1, f p.1 ≤ f s := by
  intro l
  induction l with
  | nil => intro _ s h; simp [runSteps] at h
  | cons a rest ih =>
    intro hpw s hmem p hp
    obtain ⟨ha, hrest⟩ := List.pairwise_cons.mp hpw
    by_cases hf : stepFails env a = true
    · rw [runSteps, if_pos hf] at hmem hp
      simp only [List.mem_singleton] at hmem hp
      have hs : s = a := congrArg Prod.fst hmem
      rw [hp, hs]
    · rw [runSteps, if_neg hf] at hmem hp
      simp only [List.mem_cons] at hmem hp
      rcases hmem with hmem | hmem
      · exact absurd (congrArg Prod.snd hmem) (by simp)
      · have hsrest : s ∈ rest := by
          have := runSteps_mem_steps rest (s, false) hmem
          exact this
        rcases hp with hp | hp
        · rw [hp]
          exact le_of_lt (ha s hsrest)
        · exact ih hrest s hmem p hp

theorem runSteps_blocked {env : DetachEnv} {a s : Step}
    (hf : stepFails env a = true) (hne : s ≠ a) :
    ∀ pre post : List Step, s ∉ pre →
    ∀ b : Bool, (s, b) ∉ (runSteps env (pre ++ a :: post)).1 := by
  intro pre
  induction pre with
  | nil =>
    intro post _ b h
    rw [List.nil_append, runSteps, if_pos hf] at h
    simp only [List.mem_singleton] at h
    exact hne (congrArg Prod.fst h)
  | cons c cs ih =>
    intro post hnp b h
    rw [List.cons_append] at h
    by_cases hc : stepFails env c = true
    · rw [runSteps, if_pos hc] at h
      simp only [List.mem_singleton] at h
      have hs : s = c := congrArg Prod.fst h
      exact hnp (by rw [hs]; exact List.mem_cons_self _ _)
    · rw [runSteps, if_neg hc] at h
      simp only [List.mem_cons] at h
      rcases h with h | h
      · have hs : s = c := congrArg Prod.fst h
        exact hnp (by rw [hs]; exact List.mem_cons_self _ _)
      · exact ih post (fun hm => hnp (List.mem_cons_of_mem _ hm)) b h

theorem parseLoop_dropLast_params :
    ∀ (n : Nat) (args : List String), args.length ≤ n →
    ∀ (argi : Nat) (cmds : List Command),
    parseLoop false args argi = Except.ok cmds →
    ∀ c ∈ cmds.dropLast, c.parameters = [] := by
  intro n
  induction n with
  | zero =>
    intro args hlen argi cmds hok
    have ha : args = [] := List.length_eq_zero.mp (Nat.le_zero.mp hlen)
    subst ha
    rw [parseLoop] at hok
    simp only [Except.ok.injEq] at hok
    rw [← hok]
    simp
  | succ n ih =>
    intro args hlen argi cmds hok
    match args with
    | [] =>
      rw [parseLoop] at hok
      simp only [Except.ok.injEq] at hok
      rw [← hok]
      simp
    | name :: rest =>
      by_cases hname : name.data = []
      · rw [parseLoop] at hok
        simp [hname] at hok
      · rw [parseLoop_cons false name rest argi hname] at hok
        by_cases hend : (scanOpts rest []).2.1 = true
        · rw [if_pos (by simp [hend])] at hok
          simp only [Except.ok.injEq] at hok
          rw [← hok]
          simp
        · rw [if_neg (by simp [hend])] at hok
          cases hrec : parseLoop false (scanOpts rest []).2.2
              (argi + 1 + (rest.length - (scanOpts rest []).2.2.length)) with
          | error e =>
            rw [hrec] at hok
            simp at hok
          | ok cmds2 =>
            rw [hrec] at hok
            simp only [Except.ok.injEq] at hok
            rw [← hok]
            intro c hc
            have hrem : (scanOpts rest []).2.2.length ≤ n := by
              have h1 := scanOpts_rem_length_le rest ([] : OptionMap)
              have h2 : rest.length ≤ n := by
                simp only [List.length_cons] at hlen
                omega
              exact le_trans h1 h2
            have ihh := ih (scanOpts rest []).2.2 hrem _ cmds2 hrec
            cases cmds2 with
            | nil => simp at hc
            | cons d ds =>
              rw [List.dropLast_cons₂] at hc
              rcases List.mem_cons.mp hc with rfl | hc2
              · rfl
              · exact ihh c hc2

/-- Claim C1 -/
theorem C1_single_command_parse
    (name : String) (hn : name.data ≠ [])
    (opts : List (String × Option String)) (hw : wfOpts opts)
    (rest : List String) :
    ((rest = [] ∨ ∃ t ts, rest = t :: ts ∧ optTok t = none) →
      ∃ M, parsedCommands (name :: (opts.map renderTok ++ rest)) true =
          Except.ok [⟨name, M, rest⟩] ∧
        M.length = opts.length ∧ (∀ p, p ∈ M ↔ p ∈ opts)) ∧
    (∃ M, parsedCommands (name :: (opts.map renderTok ++ (markerS :: rest))) true =
        Except.ok [⟨name, M, rest⟩] ∧
      M.length = opts.length ∧ (∀ p, p ∈ M ↔ p ∈ opts)) := by
  obtain ⟨hb1, hb2⟩ := builtMap_props hw
  constructor
  · intro hrest
    refine ⟨builtMap opts, ?_, hb1, hb2⟩
    have hscan : scanOpts (opts.map renderTok ++ rest) [] =
        (builtMap opts, false, rest) := by
      rw [scanOpts_append hw.1]
      rcases hrest with rfl | ⟨t, ts, rfl, ht⟩
      · rfl
      · exact scanOpts_nonopt ht ts _
    rw [parsedCommands, if_neg (List.cons_ne_nil _ _),
      parseLoop_cons true name _ 0 hn, hscan]
    simp
  · refine ⟨builtMap opts, ?_, hb1, hb2⟩
    have hscan : scanOpts (opts.map renderTok ++ (markerS :: rest)) [] =
        (builtMap opts, true, rest) := by
      rw [scanOpts_append hw.1]
      exact scanOpts_marker optTok_marker rest _
    rw [parsedCommands, if_neg (List.cons_ne_nil _ _),
      parseLoop_cons true name _ 0 hn, hscan]
    simp

theorem C1_single_command_parse_witness :
    ∃ M, parsedCommands [r"app", r"--x=1", r"--y", r"a", r"b"] true =
        Except.ok [⟨r"app", M, [r"a", r"b"]⟩] ∧
      M.length = 2 ∧
      (∀ p, p ∈ M ↔ p ∈ [(r"x", some r"1"), (r"y", none)]) := by
  have h := (C1_single_command_parse (r"app") (by decide)
      [(r"x", some r"1"), (r"y", none)] ⟨by decide, by decide⟩
      [r"a", r"b"]).1
      (Or.inr ⟨r"a", [r"b"], rfl, by decide⟩)
  have harg : (r"app" :: (List.map renderTok [(r"x", some r"1"), (r"y", none)] ++
      [r"a", r"b"])) = [r"app", r"--x=1", r"--y", r"a", r"b"] := by decide
  rw [harg] at h
  simpa using h

theorem C2_multi_command_parse :
    (∀ (name : String), name.data ≠ [] →
      ∀ (opts : List (String × Option String)), wfOpts opts →
      ∀ (t : String) (ts : List String), optTok t = none →
      ∀ argi : Nat,
      parseLoop false (name :: (opts.map renderTok ++ (t :: ts))) argi =
        (match parseLoop false (t :: ts) (argi + 1 + opts.length) with
         | Except.ok cmds => Except.ok (⟨name, builtMap opts, []⟩ :: cmds)
         | Except.error e => Except.error e)) ∧
    (∀ (name : String), name.data ≠ [] →
      ∀ (opts : List (String × Option String)), wfOpts opts →
      ∀ (ts : List String) (argi : Nat),
      parseLoop false (name :: (opts.map renderTok ++ (markerS :: ts))) argi =
        Except.ok [⟨name, builtMap opts, ts⟩]) ∧
    (parsedCommands
        [r"app", r"--a", r"cmd2", r"--", r"p1", r"p2", r"cmd3", r"--b"] false =
      Except.ok [⟨r"app", [(r"a", none)], []⟩,
        ⟨r"cmd2", [], [r"p1", r"p2", r"cmd3", r"--b"]⟩]) := by
  refine ⟨?_, ?_, ?_⟩
  · intro name hn opts hw t ts ht argi
    have hscan : scanOpts (opts.map renderTok ++ (t :: ts)) [] =
        (builtMap opts, false, t :: ts) := by
      rw [scanOpts_append hw.1]
      exact scanOpts_nonopt ht ts _
    rw [parseLoop_cons false name _ argi hn, hscan]
    simp [Nat.add_sub_cancel]
  · intro name hn opts hw ts argi
    have hscan : scanOpts (opts.map renderTok ++ (markerS :: ts)) [] =
        (builtMap opts, true, ts) := by
      rw [scanOpts_append hw.1]
      exact scanOpts_marker optTok_marker ts _
    rw [parseLoop_cons false name _ argi hn, hscan]
    simp
  · rw [parsedCommands, if_neg (by decide)]
    rw [parseLoop_cons _ _ _ _ (by decide)]
    rw [show scanOpts [r"--a", r"cmd2", r"--", r"p1", r"p2", r"cmd3", r"--b"] [] =
      ([(r"a", none)], false, [r"cmd2", r"--", r"p1", r"p2", r"cmd3", r"--b"])
      from by decide]
    simp only [Bool.or_false, if_neg (by decide : ¬ (false = true))]
    rw [parseLoop_cons _ _ _ _ (by decide)]
    rw [show scanOpts [r"--", r"p1", r"p2", r"cmd3", r"--b"] [] =
      ([], true, [r"p1", r"p2", r"cmd3", r"--b"]) from by decide]
    simp

theorem C2_multi_command_parse_witness :
    parseLoop false [r"app", r"--a", r"--", r"x"] 0 =
      Except.ok [⟨r"app", [(r"a", none)], [r"x"]⟩] := by
  have h := (C2_multi_command_parse).2.1 (r"app") (by decide)
      [(r"a", none)] ⟨by decide, by decide⟩ [r"x"] 0
  have harg : (r"app" :: (List.map renderTok [(r"a", none)] ++
      (markerS :: [r"x"]))) = [r"app", r"--a", r"--", r"x"] := by decide
  rw [harg] at h
  have hmap : builtMap [(r"a", none)] = [(r"a", none)] := by decide
  rw [hmap] at h
  exact h

theorem C3_counterexample_marker_with_value :
    parsedCommands [r"app", r"--=v", r"p1"] false =
      Except.ok [⟨r"app", [], [r"p1"]⟩] ∧
    ([(⟨r"app", [], [r"p1"]⟩ : Command)] : List Command) ≠
      [⟨r"app", [(r"", some r"v")], []⟩, ⟨r"p1", [], []⟩] := by
  constructor
  · rw [parsedCommands, if_neg (by decide)]
    rw [parseLoop_cons _ _ _ _ (by decide)]
    rw [show scanOpts [r"--=v", r"p1"] [] = ([], true, [r"p1"]) from by decide]
    simp
  · decide

theorem C3_amended_token_grammar :
    (optTok markerS = some (⟨[]⟩, none)) ∧
    (∀ v : String, optTok ⟨'-' :: '-' :: '=' :: v.data⟩ = some (⟨[]⟩, some v)) ∧
    (∀ k v : String, k.data ≠ [] → '=' ∉ k.data →
      optTok ⟨'-' :: '-' :: (k.data ++ '=' :: v.data)⟩ = some (k, some v)) ∧
    (∀ k : String, k.data ≠ [] → '=' ∉ k.data →
      optTok ⟨'-' :: '-' :: k.data⟩ = some (k, none)) ∧
    (∀ l : List Char, (∀ rest, l ≠ '-' :: '-' :: rest) → optTok ⟨l⟩ = none) ∧
    (∀ (t : String) (w : Option String) (ts : List String) (acc : OptionMap),
      optTok t = some (⟨[]⟩, w) → scanOpts (t :: ts) acc = (acc, true, ts)) := by
  refine ⟨optTok_marker, ?_, ?_, ?_, ?_, ?_⟩
  · intro v
    simp [optTok, splitEq]
  · intro k v h1 h2
    exact optTok_renderTok (some v) h1 h2
  · intro k h1 h2
    exact optTok_renderTok none h1 h2
  · intro l h
    exact optTok_nonopt h
  · intro t w ts acc h
    exact scanOpts_marker h ts acc

theorem C3_amended_token_grammar_witness :
    optTok ⟨'-' :: '-' :: ((r"a").data ++ '=' :: (r"1").data)⟩ =
      some (r"a", some r"1") :=
  (C3_amended_token_grammar).2.2.1 (r"a") (r"1") (by decide) (by decide)

/-- Claim C4 -/
theorem C4_fatal_step_halts_later_steps :
    (∀ (env : DetachEnv) (wd pf lf : String) (s : Step),
      (s, false) ∈ (detachRun env wd pf lf).1 → s ≠ Step.validate →
      (detachRun env wd pf lf).2 = Outcome.exitFailure ∧
      ∀ (s2 : Step) (b : Bool), (s2, b) ∈ (detachRun env wd pf lf).1 →
        stepIdx s2 ≤ stepIdx s) ∧
    (∀ (env : DetachEnv) (wd pf lf : String) (b : Bool),
      env.redirectFails = true →
      (Step.dumpPid, b) ∉ (detachRun env wd pf lf).1) := by
  constructor
  · intro env wd pf lf s hmem hs
    rw [detachRun] at hmem ⊢
    split_ifs at hmem ⊢ with h1 h2 h3
    · simp only [List.mem_singleton] at hmem
      exact absurd (congrArg Prod.fst hmem) hs
    · simp only [List.mem_singleton] at hmem
      exact absurd (congrArg Prod.fst hmem) hs
    · simp only [List.mem_singleton] at hmem
      exact absurd (congrArg Prod.fst hmem) hs
    · simp only [List.mem_cons] at hmem
      rcases hmem with hmem | hmem
      · simp at hmem
      · refine ⟨runSteps_false_outcome stepsOrder hmem, ?_⟩
        intro s2 b hp
        simp only [List.mem_cons] at hp
        rcases hp with hp | hp
        · have h4 : s2 = Step.validate := congrArg Prod.fst hp
          rw [h4]
          exact Nat.zero_le _
        · exact runSteps_rank stepIdx stepsOrder (by decide) s hmem (s2, b) hp
  · intro env wd pf lf b hred hmem
    rw [detachRun] at hmem
    split_ifs at hmem with h1 h2 h3
    · simp at hmem
    · simp at hmem
    · simp at hmem
    · simp only [List.mem_cons] at hmem
      rcases hmem with hmem | hmem
      · simp at hmem
      · have hb := runSteps_blocked
          (by simp [stepFails, hred] :
            stepFails env Step.redirect = true)
          (by decide : Step.dumpPid ≠ Step.redirect)
          [Step.fork1, Step.umask]
          [Step.setsid, Step.fork2, Step.dumpPid, Step.chdir,
            Step.closeStdin, Step.closeStdout, Step.closeStderr, Step.startup]
          (by decide) b
        have hlist : [Step.fork1, Step.umask] ++ Step.redirect ::
            [Step.setsid, Step.fork2, Step.dumpPid, Step.chdir,
              Step.closeStdin, Step.closeStdout, Step.closeStderr,
              Step.startup] = stepsOrder := rfl
        rw [hlist] at hb
        exact hb hmem

theorem C4_fatal_step_halts_later_steps_witness :
    (detachRun envRedirectFail (r"wd") (r"p.pid") (r"l.log")).2 =
      Outcome.exitFailure ∧
    stepIdx Step.umask ≤ stepIdx Step.redirect := by
  have h := (C4_fatal_step_halts_later_steps).1 envRedirectFail
    (r"wd") (r"p.pid") (r"l.log") Step.redirect (by decide) (by decide)
  exact ⟨h.1, h.2 Step.umask true (by decide)⟩

theorem C5_counterexample_dot_workdir_forks :
    ((Step.fork1, true) ∈ (detachRun envAllOk (r".") (r"p.pid") (r"l.log")).1) ∧
    (detachRun envAllOk (r".") (r"p.pid") (r"l.log")).2 ≠ Outcome.exitSuccess := by
  constructor
  · decide
  · decide

/-- Claim C5, amended -/
theorem C5_amended_validation_exits_success :
    ∀ (env : DetachEnv) (wd pf lf : String),
    (wd.data = [] ∨ pf.data = [] ∨ pf = r"." ∨ pf = r".." ∨
      lf.data = [] ∨ lf = r"." ∨ lf = r"..") →
    detachRun env wd pf lf = ([(Step.validate, false)], Outcome.exitSuccess) := by
  intro env wd pf lf h
  unfold detachRun
  by_cases h1 : wd.data = []
  · rw [if_pos h1]
  · rw [if_neg h1]
    by_cases h2 : pf.data = [] ∨ pf = r"." ∨ pf = r".."
    · rw [if_pos h2]
    · rw [if_neg h2]
      have h3 : lf.data = [] ∨ lf = r"." ∨ lf = r".." := by tauto
      rw [if_pos h3]

theorem C5_amended_validation_exits_success_witness :
    detachRun envAllOk (⟨[]⟩ : String) (r"p.pid") (r"l.log") =
      ([(Step.validate, false)], Outcome.exitSuccess) :=
  C5_amended_validation_exits_success envAllOk (⟨[]⟩ : String)
    (r"p.pid") (r"l.log") (Or.inl rfl)

theorem C6_empty_name_and_success_invariant :
    (∀ (oneMode : Bool) (rest : List String) (argi : Nat),
      parseLoop oneMode ((⟨[]⟩ : String) :: rest) argi =
        Except.error (emptyNameMsg argi)) ∧
    (∀ oneMode : Bool, parsedCommands [⟨[]⟩] oneMode =
        Except.error (emptyNameMsg 0)) ∧
    (∀ (oneMode : Bool) (argv : List String) (cmds : List Command),
      parsedCommands argv oneMode = Except.ok cmds →
      ∃ c cs, cmds = c :: cs ∧ c.name.data ≠ []) := by
  have h1 : ∀ (oneMode : Bool) (rest : List String) (argi : Nat),
      parseLoop oneMode ((⟨[]⟩ : String) :: rest) argi =
        Except.error (emptyNameMsg argi) := by
    intro oneMode rest argi
    rw [parseLoop]
    simp
  refine ⟨h1, fun oneMode => ?_, ?_⟩
  · rw [parsedCommands, if_neg (by decide)]
    exact h1 oneMode [] 0
  · intro oneMode argv cmds hok
    match argv with
    | [] =>
      rw [parsedCommands] at hok
      simp at hok
    | name :: rest =>
      rw [parsedCommands, if_neg (List.cons_ne_nil _ _)] at hok
      by_cases hname : name.data = []
      · have hn : name = ⟨[]⟩ := by
          cases name
          simp_all
        rw [hn, h1] at hok
        simp at hok
      · rw [parseLoop_cons oneMode name rest 0 hname] at hok
        by_cases hend : ((scanOpts rest []).2.1 || oneMode) = true
        · rw [if_pos hend] at hok
          simp only [Except.ok.injEq] at hok
          exact ⟨_, [], hok.symm, hname⟩
        · rw [if_neg hend] at hok
          cases hrec : parseLoop oneMode (scanOpts rest []).2.2
              (0 + 1 + (rest.length - (scanOpts rest []).2.2.length)) with
          | error e =>
            rw [hrec] at hok
            simp at hok
          | ok cmds2 =>
            rw [hrec] at hok
            simp only [Except.ok.injEq] at hok
            exact ⟨_, cmds2, hok.symm, hname⟩

theorem C6_empty_name_and_success_invariant_witness :
    parseLoop false ((⟨[]⟩ : String) :: []) 5 = Except.error (emptyNameMsg 5) ∧
    (∃ c cs, ([⟨r"app", [], []⟩] : List Command) = c :: cs ∧
      c.name.data ≠ []) := by
  constructor
  · exact (C6_empty_name_and_success_invariant).1 false [] 5
  · exact (C6_empty_name_and_success_invariant).2.2 true [r"app"]
      [⟨r"app", [], []⟩]
      (by rw [parsedCommands, if_neg (by decide),
            parseLoop_cons _ _ _ _ (by decide)]
          simp [scanOpts])

/-- Claim C7 -/
theorem C7_absent_option_invalid_combinators_safe :
    (∀ (c : Command) (n : String), mapFind n c.options = none →
      (c.option n).is_valid = false ∧
      (c.option n).is_valid_throw_if_value = Except.ok false ∧
      (c.option n).is_valid_throw_if_no_value = Except.ok false) ∧
    (∀ o : Optref, (∃ e, o.is_valid_throw_if_value = Except.error e) ↔
      (o.is_valid = true ∧ o.value.isSome = true)) ∧
    (∀ o : Optref, (∃ e, o.is_valid_throw_if_no_value = Except.error e) ↔
      (o.is_valid = true ∧ o.value.isNone = true)) := by
  refine ⟨?_, ?_, ?_⟩
  · intro c n h
    simp [Command.option, h, Optref.is_valid_throw_if_value,
      Optref.is_valid_throw_if_no_value]
  · intro o
    by_cases h1 : o.is_valid = true
    · by_cases h2 : o.value.isSome = true
      · simp [Optref.is_valid_throw_if_value, h1, h2]
      · simp [Optref.is_valid_throw_if_value, h1, h2]
    · simp [Optref.is_valid_throw_if_value, h1]
  · intro o
    by_cases h1 : o.is_valid = true
    · by_cases h2 : o.value.isNone = true
      · simp [Optref.is_valid_throw_if_no_value, h1, h2]
      · simp [Optref.is_valid_throw_if_no_value, h1, h2]
    · simp [Optref.is_valid_throw_if_no_value, h1]

theorem C7_absent_option_invalid_combinators_safe_witness :
    ((⟨r"app", [(r"x", some r"1")], []⟩ : Command).option (r"y")).is_valid
        = false ∧
    ((⟨r"app", [(r"x", some r"1")], []⟩ : Command).option
        (r"y")).is_valid_throw_if_value = Except.ok false ∧
    ((⟨r"app", [(r"x", some r"1")], []⟩ : Command).option
        (r"y")).is_valid_throw_if_no_value = Except.ok false :=
  (C7_absent_option_invalid_combinators_safe).1
    (⟨r"app", [(r"x", some r"1")], []⟩ : Command) (r"y") (by decide)

theorem C8_counterexample_no_hyphen_in_message :
    (⟨true, r"x", some (⟨[]⟩ : String)⟩ : Optref).value_of_mandatory_not_empty =
      Except.error (r"option --x requires a non empty value") ∧
    (r"option --x requires a non empty value" : String) ≠
      r"option --x requires a non-empty value" := by
  constructor
  · rfl
  · decide

/-- Claim C8, amended -/
theorem C8_amended_requirement_messages :
    (∀ o : Optref, o.is_valid = true → o.value = none →
      o.is_valid_throw_if_no_value =
        Except.error (r"option --" ++ o.name ++ r" requires a value")) ∧
    (∀ (o : Optref) (v : String), o.is_valid = true → o.value = some v →
      o.is_valid_throw_if_value =
        Except.error (r"option --" ++ o.name ++ r" requires no value")) ∧
    (∀ o : Optref, o.is_valid = true → o.value = some (⟨[]⟩ : String) →
      o.value_of_mandatory_not_empty =
        Except.error (r"option --" ++ o.name ++ r" requires a non empty value")) := by
  refine ⟨?_, ?_, ?_⟩
  · intro o h1 h2
    simp only [Optref.is_valid_throw_if_no_value, h1, h2, Option.isNone_none,
      Bool.and_self, if_pos]
    rw [Optref.requirementMessage, reqAValue, stringAppend_assoc]
    rfl
  · intro o v h1 h2
    simp only [Optref.is_valid_throw_if_value, h1, h2, Option.isSome_some,
      Bool.and_self, if_pos]
    rw [Optref.requirementMessage, reqNoValue, stringAppend_assoc]
    rfl
  · intro o h1 h2
    simp only [Optref.value_of_mandatory_not_empty,
      Optref.value_of_mandatory_not_null, Optref.value_of_mandatory, h1, h2,
      if_pos]
    rw [Optref.requirementMessage, reqNonEmpty, stringAppend_assoc]
    rfl

theorem C8_amended_requirement_messages_witness :
    (⟨true, r"x", none⟩ : Optref).is_valid_throw_if_no_value =
      Except.error (r"option --" ++ r"x" ++ r" requires a value") :=
  (C8_amended_requirement_messages).1 (⟨true, r"x", none⟩ : Optref) rfl rfl

/-- Claim C9 -/
theorem C9_start_path_defaulting :
    ∀ (d : Bool) (exe wd0 pf0 lf0 : String),
    ((startPaths d exe wd0 pf0 lf0).1 =
      (if wd0.data = [] then parentPath exe else wd0)) ∧
    (d = true → pf0.data = [] →
      (startPaths d exe wd0 pf0 lf0).2.1 =
        replaceExtension
          (pathApp (if wd0.data = [] then parentPath exe else wd0)
            (filename exe)) pidExt) ∧
    (d = true → lf0.data = [] →
      (startPaths d exe wd0 pf0 lf0).2.2 =
        replaceExtension
          (pathApp (if wd0.data = [] then parentPath exe else wd0)
            (filename exe)) logExt) ∧
    (d = false →
      (startPaths d exe wd0 pf0 lf0).2.1 = pf0 ∧
      (startPaths d exe wd0 pf0 lf0).2.2 = lf0) ∧
    (pf0.data ≠ [] → (startPaths d exe wd0 pf0 lf0).2.1 = pf0) ∧
    (lf0.data ≠ [] → (startPaths d exe wd0 pf0 lf0).2.2 = lf0) ∧
    (d = false → ∀ f : String,
      (StartAction.dumpPid f ∈ startActions d exe wd0 pf0 lf0 ↔
        (pf0.data ≠ [] ∧ f = pf0))) ∧
    (d = false → ∀ f : String,
      (StartAction.redirectClog f ∈ startActions d exe wd0 pf0 lf0 ↔
        (lf0.data ≠ [] ∧ f = lf0))) := by
  intro d exe wd0 pf0 lf0
  refine ⟨?_, ?_, ?_, ?_, ?_, ?_, ?_, ?_⟩
  · simp [startPaths]
  · intro hd hpf
    simp [startPaths, hd, hpf]
  · intro hd hlf
    simp [startPaths, hd, hlf]
  · intro hd
    simp [startPaths, hd]
  · intro hpf
    cases d <;> simp [startPaths, hpf]
  · intro hlf
    cases d <;> simp [startPaths, hlf]
  · intro hd f
    subst hd
    by_cases hp : pf0.data = []
    · by_cases hl : lf0.data = [] <;>
        simp [startActions, startPaths, hp, hl]
    · by_cases hl : lf0.data = [] <;>
        simp [startActions, startPaths, hp, hl]
  · intro hd f
    subst hd
    by_cases hp : pf0.data = []
    · by_cases hl : lf0.data = [] <;>
        simp [startActions, startPaths, hp, hl]
    · by_cases hl : lf0.data = [] <;>
        simp [startActions, startPaths, hp, hl]

theorem C9_start_path_defaulting_witness :
    (startPaths false (r"dir/app") (⟨[]⟩ : String) (r"p") (⟨[]⟩ : String)).2.1 =
      r"p" ∧
    (startPaths false (r"dir/app") (⟨[]⟩ : String) (r"p")
      (⟨[]⟩ : String)).2.2 = (⟨[]⟩ : String) ∧
    (startPaths true (r"dir/app") (⟨[]⟩ : String) (r"p")
      (⟨[]⟩ : String)).2.1 = r"p" := by
  refine ⟨?_, ?_, ?_⟩
  · exact ((C9_start_path_defaulting false (r"dir/app") ⟨[]⟩ (r"p") ⟨[]⟩).2.2.2.1
      rfl).1
  · exact ((C9_start_path_defaulting false (r"dir/app") ⟨[]⟩ (r"p") ⟨[]⟩).2.2.2.1
      rfl).2
  · exact (C9_start_path_defaulting true (r"dir/app") ⟨[]⟩ (r"p")
      ⟨[]⟩).2.2.2.2.1 (by decide)

theorem C10_nonlast_commands_have_no_params :
    ∀ (argv : List String) (cmds : List Command),
    parsedCommands argv false = Except.ok cmds →
    ∀ c ∈ cmds.dropLast, c.parameters = [] := by
  intro argv cmds hok c hc
  by_cases h : argv = []
  · subst h
    rw [parsedCommands] at hok
    simp at hok
  · rw [parsedCommands, if_neg h] at hok
    exact parseLoop_dropLast_params argv.length argv le_rfl 0 cmds hok c hc

theorem C10_nonlast_commands_have_no_params_witness :
    (⟨r"app", [], []⟩ : Command).parameters = [] := by
  refine C10_nonlast_commands_have_no_params [r"app", r"cmd2"]
    [⟨r"app", [], []⟩, ⟨r"cmd2", [], []⟩] ?_
    (⟨r"app", [], []⟩ : Command) (by decide)
  rw [parsedCommands, if_neg (by decide), parseLoop_cons _ _ _ _ (by decide)]
  rw [show scanOpts [r"cmd2"] [] = ([], false, [r"cmd2"]) from by decide]
  simp only [Bool.or_false, if_neg (by decide : ¬ (false = true))]
  rw [parseLoop_cons _ _ _ _ (by decide)]
  simp [scanOpts, parseLoop]

end Prg
